import Mathlib

/-!
Verification development for the minesweeper AI engine (src/minesweeper.py).

The embedding models the `Sentence` class and the `MinesweeperAI` class as
Lean structures, with Python sets as `Finset`, Python ints as `Int`, and the
knowledge base list as `List Sentence`.  Python operations that can raise an
uncaught exception (`set.remove` raising KeyError, `next` on an exhausted
iterator raising StopIteration, list indexing raising IndexError) are modelled
with `Except String`, where the string names the Python exception type; a
normal return is `Except.ok`.  Python iterates sets in an unspecified order;
wherever the source iterates a set, the embedding iterates the same elements
in the sorted order given by `cellLe`, which is one of the permitted orders
(all the iterations in the source are order-independent in their final
effect, except that an exception aborts at the first missing element; whether
an exception occurs at all is order-independent as well).
-/

/-- A board cell, a pair of integers (row, column), as in the Python tuples. -/
abbrev Cell : Type := ℤ × ℤ

/-- Row-major order on cells, used to linearize `Finset Cell` for iteration. -/
def cellLe (a b : Cell) : Prop :=
  a.1 < b.1 ∨ (a.1 = b.1 ∧ a.2 ≤ b.2)

instance : DecidableRel cellLe := fun a b => by
  unfold cellLe; infer_instance

/-- Insertion of a cell into a list kept in `cellLe` order, used to
linearize sets.  Defined by structural recursion so that it evaluates
inside the kernel. -/
def insertCell (c : Cell) : List Cell → List Cell
  | [] => [c]
  | x :: xs => if cellLe c x then c :: x :: xs else x :: insertCell c xs

instance : LeftCommutative insertCell := by
  constructor
  intro a b l
  induction l with
  | nil =>
    by_cases hab : cellLe a b <;> by_cases hba : cellLe b a
    · have hEq : a = b := by
        unfold cellLe at hab hba
        exact Prod.ext (by omega) (by omega)
      subst hEq
      rfl
    · simp [insertCell, hab, hba]
    · simp [insertCell, hab, hba]
    · exfalso
      unfold cellLe at hab hba
      omega
  | cons x xs ih =>
    by_cases hax : cellLe a x <;> by_cases hbx : cellLe b x
    · by_cases hab : cellLe a b <;> by_cases hba : cellLe b a
      · have hEq : a = b := by
          unfold cellLe at hab hba
          exact Prod.ext (by omega) (by omega)
        subst hEq
        rfl
      · simp [insertCell, hax, hbx, hab, hba]
      · simp [insertCell, hax, hbx, hab, hba]
      · exfalso
        unfold cellLe at hab hba
        omega
    · have hba : ¬ cellLe b a := by
        unfold cellLe at hax hbx ⊢
        omega
      simp [insertCell, hax, hbx, hba]
    · have hab : ¬ cellLe a b := by
        unfold cellLe at hax hbx ⊢
        omega
      simp [insertCell, hax, hbx, hab]
    · simp [insertCell, hax, hbx, ih]

/-- Linearization of a Python set of cells for iteration: fold insertion
over the underlying duplicate-free multiset.  Insertion is
left-commutative, so the fold is well defined on the quotient. -/
def cellList (s : Finset Cell) : List Cell :=
  Multiset.foldr insertCell [] s.val

/-- Decidable equality of call results, used to evaluate the engine on
concrete inputs in the theorems below. -/
instance {α β : Type} [DecidableEq α] [DecidableEq β] : DecidableEq (Except α β) :=
  fun x y =>
  match x, y with
  | Except.error a, Except.error b =>
    if h : a = b then Decidable.isTrue (by rw [h]) else Decidable.isFalse (by simp [h])
  | Except.ok a, Except.ok b =>
    if h : a = b then Decidable.isTrue (by rw [h]) else Decidable.isFalse (by simp [h])
  | Except.error _, Except.ok _ => Decidable.isFalse (by simp)
  | Except.ok _, Except.error _ => Decidable.isFalse (by simp)

/-- The `Sentence` class: a set of cells, a mine count, and the accumulated
sets of cells removed because proven mines or proven safe. -/
structure Sentence where
  cells : Finset Cell
  count : ℤ
  mines : Finset Cell
  safes : Finset Cell

instance : DecidableEq Sentence := fun a b =>
  decidable_of_iff
    (a.cells = b.cells ∧ a.count = b.count ∧ a.mines = b.mines ∧ a.safes = b.safes)
    (by cases a; cases b; simp)

/-- The method `Sentence.mark_mine`: if the cell is present, remove it, decrement the
count, and record it in the per-sentence `mines` set (source lines 120-124). -/
def Sentence.mark_mine (cell : Cell) (st : Sentence) : Sentence :=
  if cell ∈ st.cells then
    { st with
      cells := st.cells.erase cell
      count := st.count - 1
      mines := insert cell st.mines }
  else st

/-- The method `Sentence.mark_safe`: if the cell is present, remove it (count unchanged)
and record it in the per-sentence `safes` set (source lines 126-129). -/
def Sentence.mark_safe (cell : Cell) (st : Sentence) : Sentence :=
  if cell ∈ st.cells then
    { st with
      cells := st.cells.erase cell
      safes := insert cell st.safes }
  else st

/-- The state of the `MinesweeperAI` class: board dimensions, the set of
moves made, the global known mines and safes, and the knowledge base. -/
structure MinesweeperAI where
  height : ℕ
  width : ℕ
  moves_made : Finset Cell
  mines : Finset Cell
  safes : Finset Cell
  knowledge : List Sentence

instance : DecidableEq MinesweeperAI := fun a b =>
  decidable_of_iff
    (a.height = b.height ∧ a.width = b.width ∧ a.moves_made = b.moves_made ∧
      a.mines = b.mines ∧ a.safes = b.safes ∧ a.knowledge = b.knowledge)
    (by cases a; cases b; simp)

/-- The `MinesweeperAI.__init__` state (source lines 136-150). -/
def MinesweeperAI.init (height width : ℕ) : MinesweeperAI :=
  { height := height
    width := width
    moves_made := ∅
    mines := ∅
    safes := ∅
    knowledge := [] }

/-- The method `MinesweeperAI.mark_mine`: add the cell to global `mines` and propagate
`Sentence.mark_mine` to every sentence (source lines 152-159). -/
def MinesweeperAI.mark_mine (cell : Cell) (s : MinesweeperAI) : MinesweeperAI :=
  { s with
    mines := insert cell s.mines
    knowledge := s.knowledge.map (Sentence.mark_mine cell) }

/-- The method `MinesweeperAI.mark_safe`: add the cell to global `safes` and propagate
`Sentence.mark_safe` to every sentence (source lines 161-168). -/
def MinesweeperAI.mark_safe (cell : Cell) (s : MinesweeperAI) : MinesweeperAI :=
  { s with
    safes := insert cell s.safes
    knowledge := s.knowledge.map (Sentence.mark_safe cell) }

/-- The method `MinesweeperAI.get_neighbors` (source lines 273-307).  The bounds checks
are the literal ones of the source: the upper bounds are the hardcoded
constant 7 in every direction, independent of the configured height and
width of the board. -/
def MinesweeperAI.get_neighbors (cell : Cell) : Finset Cell :=
  let n0 : Finset Cell := ∅
  let n1 := if cell.1 - 1 ≥ 0 ∧ cell.2 - 1 ≥ 0 then insert (cell.1 - 1, cell.2 - 1) n0 else n0
  let n2 := if cell.1 - 1 ≥ 0 then insert (cell.1 - 1, cell.2) n1 else n1
  let n3 := if cell.1 - 1 ≥ 0 ∧ cell.2 + 1 ≤ 7 then insert (cell.1 - 1, cell.2 + 1) n2 else n2
  let n4 := if cell.2 + 1 ≤ 7 then insert (cell.1, cell.2 + 1) n3 else n3
  let n5 := if cell.1 + 1 ≤ 7 ∧ cell.2 + 1 ≤ 7 then insert (cell.1 + 1, cell.2 + 1) n4 else n4
  let n6 := if cell.1 + 1 ≤ 7 then insert (cell.1 + 1, cell.2) n5 else n5
  let n7 := if cell.1 + 1 ≤ 7 ∧ cell.2 - 1 ≥ 0 then insert (cell.1 + 1, cell.2 - 1) n6 else n6
  let n8 := if cell.2 - 1 ≥ 0 then insert (cell.1, cell.2 - 1) n7 else n7
  n8

/-- The method `MinesweeperAI.test_for_subset` (source lines 309-314): checks that every
cell of `a` is a member of `b`. -/
def MinesweeperAI.test_for_subset (a b : Finset Cell) : Bool :=
  (cellList a).all (fun cell => decide (cell ∈ b))

/-- Sequential removal of the listed cells from a Python set, as done by the
loop `for cell in a: b.remove(cell)`.  Python `set.remove` raises KeyError
when the element is absent. -/
def removeCells (cs : List Cell) (b : Finset Cell) : Except String (Finset Cell) :=
  match cs with
  | [] => Except.ok b
  | c :: rest =>
    if c ∈ b then removeCells rest (b.erase c) else Except.error "KeyError"

/-- The method `MinesweeperAI.diff_sentences` (source lines 316-324): remove every cell
of sentence `pair.1` from the cell set of sentence `pair.2` one by one, then
subtract the counts.  The per-sentence `mines` and `safes` fields of the
modified sentence are untouched by the source.  An out-of-range index would
raise IndexError in Python. -/
def MinesweeperAI.diff_sentences (k : List Sentence) (pair : ℕ × ℕ) :
    Except String (List Sentence) :=
  match k.get? pair.1, k.get? pair.2 with
  | some A, some B =>
    match removeCells (cellList A.cells) B.cells with
    | Except.ok cells2 =>
      Except.ok (k.set pair.2 { B with cells := cells2, count := B.count - A.count })
    | Except.error e => Except.error e
  | _, _ => Except.error "IndexError"

/-- The subset-pair collection of `add_knowledge` (source lines 197-205):
all index pairs (i, j) with i < j such that the cells of sentence i are a
subset of the cells of sentence j, in the order produced by the two nested
loops.  The source then deduplicates with `dict.fromkeys`, which is the
identity here because the nested loops produce each pair at most once. -/
def MinesweeperAI.compute_pairs (k : List Sentence) : List (ℕ × ℕ) :=
  ((List.range k.length).map (fun i =>
    ((List.range k.length).filter (fun j => decide (i < j))).filterMap (fun j =>
      match k.get? i, k.get? j with
      | some A, some B =>
        if MinesweeperAI.test_for_subset A.cells B.cells then some (i, j) else none
      | _, _ => none))).flatten

/-- The resolution loop of `add_knowledge` (source lines 207-209): apply
`diff_sentences` to each collected pair in order, on the evolving list. -/
def MinesweeperAI.resolve (k : List Sentence) (pairs : List (ℕ × ℕ)) :
    Except String (List Sentence) :=
  pairs.foldlM MinesweeperAI.diff_sentences k

/-- Marking a list of cells safe at the AI level, as done by the loop
`for cell in safe_cells: self.mark_safe(cell)`. -/
def MinesweeperAI.markSafeCells (cs : List Cell) (s : MinesweeperAI) : MinesweeperAI :=
  cs.foldl (fun t c => MinesweeperAI.mark_safe c t) s

/-- Marking a list of cells as mines at the AI level. -/
def MinesweeperAI.markMineCells (cs : List Cell) (s : MinesweeperAI) : MinesweeperAI :=
  cs.foldl (fun t c => MinesweeperAI.mark_mine c t) s

/-- One iteration of the zero-count loop of `add_knowledge` (source lines
213-219): if the sentence at index i currently has count 0, mark a copy of
its current cells safe. -/
def MinesweeperAI.zeroStep (t : MinesweeperAI) (i : ℕ) : MinesweeperAI :=
  match t.knowledge.get? i with
  | some st =>
    if st.count = 0 then MinesweeperAI.markSafeCells (cellList st.cells) t else t
  | none => t

/-- The zero-count collapse of `add_knowledge` (source lines 211-221): walk
the knowledge base marking the cells of every count-0 sentence safe, then
delete the sentences that were collected, i.e. exactly the positions whose
count is 0 (marking safe never changes a count, so the set of count-0
positions is the same before, during and after the walk; the source deletes
the collected indexes from highest to lowest, which removes exactly those
positions). -/
def MinesweeperAI.zero_pass (s : MinesweeperAI) : MinesweeperAI :=
  let s1 := (List.range s.knowledge.length).foldl MinesweeperAI.zeroStep s
  { s1 with knowledge := s1.knowledge.filter (fun st => !(decide (st.count = 0))) }

/-- One iteration of the mine loop of `add_knowledge` (source lines 225-232):
if the sentence at index i currently has count 1 and exactly one cell, record
the index and mark a copy of its current cells as mines. -/
def MinesweeperAI.mineStep (p : MinesweeperAI × List ℕ) (i : ℕ) : MinesweeperAI × List ℕ :=
  match p.1.knowledge.get? i with
  | some st =>
    if st.count = 1 ∧ st.cells.card = 1 then
      (MinesweeperAI.markMineCells (cellList st.cells) p.1, p.2 ++ [i])
    else p
  | none => p

/-- The mine collapse of `add_knowledge` (source lines 223-234): walk the
knowledge base collapsing every sentence that is a singleton with count 1 at
the moment it is visited (marking a mine decrements counts of later
sentences, so the visit order matters and the collected indexes must be
remembered), then delete exactly the collected positions (the source deletes
them from highest index to lowest). -/
def MinesweeperAI.mine_pass (s : MinesweeperAI) : MinesweeperAI :=
  let n := s.knowledge.length
  let p := (List.range n).foldl MinesweeperAI.mineStep (s, [])
  { p.1 with
    knowledge := (List.range n).filterMap (fun i =>
      if i ∈ p.2 then none else p.1.knowledge.get? i) }

/-- Steps 1 to 3 of `add_knowledge` (source lines 185-193): record the move,
mark the revealed cell safe, and append the new sentence built from the raw
neighbor set of the revealed cell. -/
def MinesweeperAI.addSentenceState (cell : Cell) (count : ℤ) (s : MinesweeperAI) :
    MinesweeperAI :=
  let s1 := { s with moves_made := insert cell s.moves_made }
  let s2 := MinesweeperAI.mark_safe cell s1
  { s2 with
    knowledge := s2.knowledge ++
      [({ cells := MinesweeperAI.get_neighbors cell
          count := count
          mines := ∅
          safes := ∅ } : Sentence)] }

/-- The method `MinesweeperAI.add_knowledge` (source lines 170-234): after steps 1 to 3
(`addSentenceState`), run one pass of subset resolution over the pairs
collected up front, then one zero-count collapse pass, then one
singleton-mine collapse pass.  The passes are not repeated.  A KeyError
escaping `diff_sentences` aborts the call. -/
def MinesweeperAI.add_knowledge (cell : Cell) (count : ℤ) (s : MinesweeperAI) :
    Except String MinesweeperAI :=
  match MinesweeperAI.resolve (MinesweeperAI.addSentenceState cell count s).knowledge
      (MinesweeperAI.compute_pairs (MinesweeperAI.addSentenceState cell count s).knowledge) with
  | Except.error e => Except.error e
  | Except.ok k =>
    Except.ok (MinesweeperAI.mine_pass (MinesweeperAI.zero_pass
      { MinesweeperAI.addSentenceState cell count s with knowledge := k }))

/-- Python `next(iter(s))` on a set: the first element in some iteration
order, raising StopIteration when the set is empty. -/
def nextIter (s : Finset Cell) : Except String Cell :=
  match (cellList s).head? with
  | some c => Except.ok c
  | none => Except.error "StopIteration"

/-- The method `MinesweeperAI.make_safe_move` (source lines 236-252): work on a copy of
`safes`; return None (modelled `ok none`) if it is empty; remove every move
made from the copy (KeyError if a move is not in the copy); return None if
the copy became empty, otherwise the first element of the copy. -/
def MinesweeperAI.make_safe_move (s : MinesweeperAI) : Except String (Option Cell) :=
  if s.safes = ∅ then Except.ok none
  else
    Except.bind (removeCells (cellList s.moves_made) s.safes) (fun s1 =>
      if s1 = ∅ then Except.ok none
      else Except.bind (nextIter s1) (fun c => Except.ok (some c)))

/-- The set of all board cells built by the two nested loops of
`make_random_move` (source lines 262-266). -/
def allCells (h w : ℕ) : Finset Cell :=
  ((Finset.range h) ×ˢ (Finset.range w)).image (fun p => ((p.1 : ℤ), (p.2 : ℤ)))

/-- The method `MinesweeperAI.make_random_move` (source lines 254-271): build the set of
all board cells, remove every move made, then remove every known mine
(KeyError if absent), and return the first element of what remains; there is
no emptiness check, so `next` raises StopIteration on an exhausted board.
The unused `safes_copy` local of the source is dead code and omitted. -/
def MinesweeperAI.make_random_move (s : MinesweeperAI) : Except String Cell :=
  Except.bind (removeCells (cellList s.moves_made) (allCells s.height s.width)) (fun all1 =>
    Except.bind (removeCells (cellList s.mines) all1) (fun all2 => nextIter all2))

/-- Modelled from the spec (section 4.5): the neighbor computation as the
specification words it, namely the up to 8 cells at Chebyshev distance 1
from the given cell, clipped to the bounds of the h by w board.  Used to
compare `get_neighbors` against the specified behavior. -/
def spec_neighbors (h w : ℤ) (c : Cell) : Finset Cell :=
  ((([(-1, -1), (-1, 0), (-1, 1), (0, 1), (1, 1), (1, 0), (1, -1), (0, -1)] : List (ℤ × ℤ)).map
    (fun d => (c.1 + d.1, c.2 + d.2))).toFinset).filter
    (fun p => 0 ≤ p.1 ∧ p.1 < h ∧ 0 ≤ p.2 ∧ p.2 < w)

/-- A sequence of the two knowledge-base mutators applied in order: an entry
(true, c) is a `mark_mine c` call and (false, c) a `mark_safe c` call. -/
def applyMarks (ops : List (Bool × Cell)) (s : MinesweeperAI) : MinesweeperAI :=
  ops.foldl (fun t op =>
    if op.1 then MinesweeperAI.mark_mine op.2 t else MinesweeperAI.mark_safe op.2 t) s

/-- States reachable from a fresh engine through the knowledge-base
operations: the two mutators and `add_knowledge` (when it returns normally).
The two move selectors do not change the state. -/
inductive Reachable (h w : ℕ) : MinesweeperAI → Prop where
  | init : Reachable h w (MinesweeperAI.init h w)
  | mark_mine (c : Cell) {s : MinesweeperAI} :
      Reachable h w s → Reachable h w (MinesweeperAI.mark_mine c s)
  | mark_safe (c : Cell) {s : MinesweeperAI} :
      Reachable h w s → Reachable h w (MinesweeperAI.mark_safe c s)
  | add_knowledge (c : Cell) (n : ℤ) {s s2 : MinesweeperAI} :
      Reachable h w s → MinesweeperAI.add_knowledge c n s = Except.ok s2 →
      Reachable h w s2

/-! ## Helper lemmas about the iteration primitives -/

/-- Inserting a cell into a list adds it to the underlying multiset. -/
lemma coe_insertCell (c : Cell) (l : List Cell) :
    ((insertCell c l : List Cell) : Multiset Cell) = c ::ₘ (l : Multiset Cell) := by
  induction l with
  | nil => rfl
  | cons x xs ih =>
    by_cases h : cellLe c x
    · simp [insertCell, h]
    · rw [show insertCell c (x :: xs) = x :: insertCell c xs by simp [insertCell, h],
        ← Multiset.cons_coe, ih, Multiset.cons_swap, Multiset.cons_coe]

/-- The linearization carries exactly the elements of the multiset. -/
lemma foldr_insertCell_coe (m : Multiset Cell) :
    ((Multiset.foldr insertCell [] m : List Cell) : Multiset Cell) = m := by
  induction m using Multiset.induction_on with
  | empty => rfl
  | cons a s ih => rw [Multiset.foldr_cons, coe_insertCell, ih]

/-- The linearization of a set carries exactly its underlying multiset. -/
lemma cellList_coe (s : Finset Cell) :
    ((cellList s : List Cell) : Multiset Cell) = s.val :=
  foldr_insertCell_coe s.val

/-- The linearization of a set has no duplicates. -/
lemma cellList_nodup (s : Finset Cell) : (cellList s).Nodup := by
  have h := s.nodup
  rw [← cellList_coe s] at h
  exact h

/-- Membership in the linearization agrees with membership in the set. -/
lemma mem_cellList {s : Finset Cell} {c : Cell} : c ∈ cellList s ↔ c ∈ s := by
  rw [← Multiset.mem_coe, cellList_coe]
  exact Iff.rfl

/-- The linearization recovers the set. -/
lemma cellList_toFinset (s : Finset Cell) : (cellList s).toFinset = s := by
  ext x
  rw [List.mem_toFinset, mem_cellList]

/-- Sequential removal of a duplicate-free list of present elements succeeds
and computes the set difference. -/
lemma removeCells_ok (l : List Cell) (b : Finset Cell)
    (hnd : l.Nodup) (hmem : ∀ c ∈ l, c ∈ b) :
    removeCells l b = Except.ok (b \ l.toFinset) := by
  induction l generalizing b with
  | nil => simp [removeCells]
  | cons c rest ih =>
    have hc : c ∈ b := hmem c (List.mem_cons_self c rest)
    have hnd2 := List.nodup_cons.mp hnd
    rw [removeCells, if_pos hc, ih (b.erase c) hnd2.2 ?memb]
    case memb =>
      intro x hx
      exact Finset.mem_erase.mpr ⟨fun he => hnd2.1 (he ▸ hx), hmem x (List.mem_cons_of_mem c hx)⟩
    congr 1
    ext x
    simp only [Finset.mem_sdiff, Finset.mem_erase, List.toFinset_cons, Finset.mem_insert,
      List.mem_toFinset]
    tauto

/-- Removing the elements of one set from a superset computes set difference. -/
lemma removeCells_cellList {a b : Finset Cell} (h : a ⊆ b) :
    removeCells (cellList a) b = Except.ok (b \ a) := by
  rw [removeCells_ok (cellList a) b (cellList_nodup a)
      (fun c hc => h (mem_cellList.mp hc)), cellList_toFinset]

/-- The only exception sequential removal can raise is KeyError. -/
lemma removeCells_error {cs : List Cell} {b : Finset Cell} {e : String}
    (h : removeCells cs b = Except.error e) : e = "KeyError" := by
  induction cs generalizing b with
  | nil => simp [removeCells] at h
  | cons c rest ih =>
    rw [removeCells] at h
    by_cases hc : c ∈ b
    · rw [if_pos hc] at h
      exact ih h
    · rw [if_neg hc] at h
      exact (Except.error.injEq _ _).mp h.symm

/-- A value produced by `nextIter` is an element of the set. -/
lemma nextIter_ok_mem {s : Finset Cell} {c : Cell} (h : nextIter s = Except.ok c) :
    c ∈ s := by
  rw [nextIter] at h
  rcases hl : cellList s with _ | ⟨x, xs⟩
  · rw [hl] at h
    simp at h
  · rw [hl] at h
    simp only [List.head?] at h
    have hx : x = c := (Except.ok.injEq _ _).mp h
    rw [← hx, ← mem_cellList, hl]
    exact List.mem_cons_self x xs

/-- On a nonempty set `nextIter` returns normally, with an element. -/
lemma nextIter_of_nonempty {s : Finset Cell} (h : s ≠ ∅) :
    ∃ c, nextIter s = Except.ok c ∧ c ∈ s := by
  rcases hl : cellList s with _ | ⟨x, xs⟩
  · exfalso
    apply h
    have h0 : s.val = 0 := by
      rw [← cellList_coe s, hl]
      rfl
    exact Finset.val_eq_zero.mp h0
  · refine ⟨x, ?_, ?_⟩
    · rw [nextIter, hl]
      rfl
    · rw [← mem_cellList, hl]
      exact List.mem_cons_self x xs

/-! ## Helper lemmas about the error behavior of resolution -/

/-- The only exceptions `diff_sentences` can raise are KeyError (from the
element removal loop) and IndexError (from list indexing). -/
lemma diff_sentences_error {k : List Sentence} {p : ℕ × ℕ} {e : String}
    (h : MinesweeperAI.diff_sentences k p = Except.error e) :
    e = "KeyError" ∨ e = "IndexError" := by
  unfold MinesweeperAI.diff_sentences at h
  split at h
  · split at h
    · simp at h
    · rename_i hr
      have he : _ = e := (Except.error.injEq _ _).mp h
      exact Or.inl (he ▸ removeCells_error hr)
  · exact Or.inr ((Except.error.injEq _ _).mp h).symm

/-- The only exceptions the resolution loop can raise are KeyError and
IndexError. -/
lemma resolve_error {pairs : List (ℕ × ℕ)} {k : List Sentence} {e : String}
    (h : MinesweeperAI.resolve k pairs = Except.error e) :
    e = "KeyError" ∨ e = "IndexError" := by
  induction pairs generalizing k with
  | nil =>
    have : MinesweeperAI.resolve k [] = Except.ok k := rfl
    rw [this] at h
    simp at h
  | cons p rest ih =>
    have hstep : MinesweeperAI.resolve k (p :: rest) =
        Except.bind (MinesweeperAI.diff_sentences k p)
          (fun k2 => MinesweeperAI.resolve k2 rest) := rfl
    rw [hstep] at h
    rcases hd : MinesweeperAI.diff_sentences k p with e2 | k2 <;> rw [hd] at h
    · have he : e2 = e := (Except.error.injEq _ _).mp h
      exact he ▸ diff_sentences_error hd
    · exact ih h

/-! ## State-field lemmas for the passes of add_knowledge -/

/-- Marking cells safe at the AI level never touches the moves made. -/
lemma markSafeCells_moves (cs : List Cell) (s : MinesweeperAI) :
    (MinesweeperAI.markSafeCells cs s).moves_made = s.moves_made := by
  induction cs generalizing s with
  | nil => rfl
  | cons c rest ih => exact ih (MinesweeperAI.mark_safe c s)

/-- Marking cells safe at the AI level only grows the safes set. -/
lemma markSafeCells_safes (cs : List Cell) (s : MinesweeperAI) :
    s.safes ⊆ (MinesweeperAI.markSafeCells cs s).safes := by
  induction cs generalizing s with
  | nil => exact Finset.Subset.refl _
  | cons c rest ih =>
    exact fun x hx => ih (MinesweeperAI.mark_safe c s)
      (Finset.mem_insert_of_mem hx)

/-- Marking cells as mines at the AI level never touches the moves made. -/
lemma markMineCells_moves (cs : List Cell) (s : MinesweeperAI) :
    (MinesweeperAI.markMineCells cs s).moves_made = s.moves_made := by
  induction cs generalizing s with
  | nil => rfl
  | cons c rest ih => exact ih (MinesweeperAI.mark_mine c s)

/-- Marking cells as mines at the AI level never touches the safes set. -/
lemma markMineCells_safes (cs : List Cell) (s : MinesweeperAI) :
    (MinesweeperAI.markMineCells cs s).safes = s.safes := by
  induction cs generalizing s with
  | nil => rfl
  | cons c rest ih => exact ih (MinesweeperAI.mark_mine c s)

/-- One zero-collapse step never touches the moves made. -/
lemma zeroStep_moves (t : MinesweeperAI) (i : ℕ) :
    (MinesweeperAI.zeroStep t i).moves_made = t.moves_made := by
  unfold MinesweeperAI.zeroStep
  split
  · split
    · exact markSafeCells_moves _ _
    · rfl
  · rfl

/-- One zero-collapse step only grows the safes set. -/
lemma zeroStep_safes (t : MinesweeperAI) (i : ℕ) :
    t.safes ⊆ (MinesweeperAI.zeroStep t i).safes := by
  unfold MinesweeperAI.zeroStep
  split
  · split
    · exact markSafeCells_safes _ _
    · exact Finset.Subset.refl _
  · exact Finset.Subset.refl _

/-- The zero-collapse walk never touches the moves made. -/
lemma zeroFold_moves (l : List ℕ) (s : MinesweeperAI) :
    (l.foldl MinesweeperAI.zeroStep s).moves_made = s.moves_made := by
  induction l generalizing s with
  | nil => rfl
  | cons i rest ih => exact (ih (MinesweeperAI.zeroStep s i)).trans (zeroStep_moves s i)

/-- The zero-collapse walk only grows the safes set. -/
lemma zeroFold_safes (l : List ℕ) (s : MinesweeperAI) :
    s.safes ⊆ (l.foldl MinesweeperAI.zeroStep s).safes := by
  induction l generalizing s with
  | nil => exact Finset.Subset.refl _
  | cons i rest ih =>
    exact (zeroStep_safes s i).trans (ih (MinesweeperAI.zeroStep s i))

/-- The zero-count collapse pass never touches the moves made. -/
lemma zero_pass_moves (s : MinesweeperAI) :
    (MinesweeperAI.zero_pass s).moves_made = s.moves_made :=
  zeroFold_moves _ s

/-- The zero-count collapse pass only grows the safes set. -/
lemma zero_pass_safes (s : MinesweeperAI) :
    s.safes ⊆ (MinesweeperAI.zero_pass s).safes :=
  zeroFold_safes _ s

/-- One mine-collapse step never touches the moves made or the safes set. -/
lemma mineStep_moves_safes (p : MinesweeperAI × List ℕ) (i : ℕ) :
    (MinesweeperAI.mineStep p i).1.moves_made = p.1.moves_made ∧
    (MinesweeperAI.mineStep p i).1.safes = p.1.safes := by
  unfold MinesweeperAI.mineStep
  split
  · split
    · exact ⟨markMineCells_moves _ _, markMineCells_safes _ _⟩
    · exact ⟨rfl, rfl⟩
  · exact ⟨rfl, rfl⟩

/-- The mine-collapse walk never touches the moves made or the safes set. -/
lemma mineFold_moves_safes (l : List ℕ) (p : MinesweeperAI × List ℕ) :
    (l.foldl MinesweeperAI.mineStep p).1.moves_made = p.1.moves_made ∧
    (l.foldl MinesweeperAI.mineStep p).1.safes = p.1.safes := by
  induction l generalizing p with
  | nil => exact ⟨rfl, rfl⟩
  | cons i rest ih =>
    have h1 := mineStep_moves_safes p i
    have h2 := ih (MinesweeperAI.mineStep p i)
    exact ⟨h2.1.trans h1.1, h2.2.trans h1.2⟩

/-- The mine collapse pass never touches the moves made. -/
lemma mine_pass_moves (s : MinesweeperAI) :
    (MinesweeperAI.mine_pass s).moves_made = s.moves_made :=
  (mineFold_moves_safes _ (s, [])).1

/-- The mine collapse pass never touches the safes set. -/
lemma mine_pass_safes (s : MinesweeperAI) :
    (MinesweeperAI.mine_pass s).safes = s.safes :=
  (mineFold_moves_safes _ (s, [])).2

/-- Steps 1 to 3 add exactly the revealed cell to the moves made. -/
lemma addSentenceState_moves (c : Cell) (n : ℤ) (s : MinesweeperAI) :
    (MinesweeperAI.addSentenceState c n s).moves_made = insert c s.moves_made :=
  rfl

/-- Steps 1 to 3 set the safes set to the old one with the revealed cell added. -/
lemma addSentenceState_safes (c : Cell) (n : ℤ) (s : MinesweeperAI) :
    (MinesweeperAI.addSentenceState c n s).safes = insert c s.safes :=
  rfl

/-- A normal return of `add_knowledge` records exactly the revealed cell in
the moves made, and the safes set ends up containing the revealed cell and
everything it contained before. -/
lemma add_knowledge_ok_fields {c : Cell} {n : ℤ} {s s2 : MinesweeperAI}
    (h : MinesweeperAI.add_knowledge c n s = Except.ok s2) :
    s2.moves_made = insert c s.moves_made ∧ insert c s.safes ⊆ s2.safes := by
  unfold MinesweeperAI.add_knowledge at h
  split at h
  · simp at h
  · rename_i k hk
    have hs2 : MinesweeperAI.mine_pass (MinesweeperAI.zero_pass
        { MinesweeperAI.addSentenceState c n s with knowledge := k }) = s2 :=
      (Except.ok.injEq _ _).mp h
    rw [← hs2]
    constructor
    · rw [mine_pass_moves, zero_pass_moves]
      exact addSentenceState_moves c n s
    · rw [mine_pass_safes]
      have hmono := zero_pass_safes { MinesweeperAI.addSentenceState c n s with knowledge := k }
      have hsf : ({ MinesweeperAI.addSentenceState c n s with knowledge := k } :
          MinesweeperAI).safes = insert c s.safes := addSentenceState_safes c n s
      rwa [hsf] at hmono

/-! ## Behavior of the move selectors -/

/-- Binding a normal `Except` value reduces to applying the continuation. -/
lemma except_ok_bind {α β : Type} (a : α) (f : α → Except String β) :
    Except.bind (Except.ok a) f = f a :=
  rfl

/-- Under the invariant that every move made is known safe, `make_safe_move`
returns normally: None exactly when no eligible cell remains, and otherwise
some cell that is known safe and not yet played. -/
lemma make_safe_move_spec {s : MinesweeperAI} (h : s.moves_made ⊆ s.safes) :
    (MinesweeperAI.make_safe_move s = Except.ok none ∧ s.safes \ s.moves_made = ∅) ∨
    (∃ c, MinesweeperAI.make_safe_move s = Except.ok (some c) ∧
      c ∈ s.safes ∧ c ∉ s.moves_made) := by
  unfold MinesweeperAI.make_safe_move
  by_cases hempty : s.safes = ∅
  · rw [if_pos hempty]
    left
    refine ⟨rfl, ?_⟩
    rw [hempty]
    exact Finset.empty_sdiff _
  · rw [if_neg hempty, removeCells_cellList h, except_ok_bind]
    by_cases hrest : s.safes \ s.moves_made = ∅
    · rw [if_pos hrest]
      exact Or.inl ⟨rfl, hrest⟩
    · rw [if_neg hrest]
      obtain ⟨c, hc, hmem⟩ := nextIter_of_nonempty hrest
      rw [hc, except_ok_bind]
      have hmem2 := Finset.mem_sdiff.mp hmem
      exact Or.inr ⟨c, rfl, hmem2.1, hmem2.2⟩

/-- When the moves made are board cells and the known mines are board cells
not yet played, `make_random_move` returns a cell of the remaining pool when
the pool is nonempty, and raises StopIteration when the pool is empty. -/
lemma make_random_move_spec {s : MinesweeperAI}
    (h1 : s.moves_made ⊆ allCells s.height s.width)
    (h2 : s.mines ⊆ allCells s.height s.width \ s.moves_made) :
    ((allCells s.height s.width \ s.moves_made) \ s.mines = ∅ →
      MinesweeperAI.make_random_move s = Except.error "StopIteration") ∧
    ((allCells s.height s.width \ s.moves_made) \ s.mines ≠ ∅ →
      ∃ c, MinesweeperAI.make_random_move s = Except.ok c ∧
        c ∉ s.mines ∧ c ∉ s.moves_made ∧ c ∈ allCells s.height s.width) := by
  unfold MinesweeperAI.make_random_move
  rw [removeCells_cellList h1, except_ok_bind, removeCells_cellList h2, except_ok_bind]
  constructor
  · intro hempty
    rw [nextIter, hempty, show cellList (∅ : Finset Cell) = [] from rfl]
    rfl
  · intro hne
    obtain ⟨c, hc, hmem⟩ := nextIter_of_nonempty hne
    rw [hc]
    have hm1 := Finset.mem_sdiff.mp hmem
    have hm2 := Finset.mem_sdiff.mp hm1.1
    exact ⟨c, rfl, hm1.2, hm2.2, hm2.1⟩

/-! ## Characterization of sequences of the two mutators -/

/-- The safes set after a sequence of mutator calls is the initial safes set
together with every cell passed to `mark_safe`. -/
lemma applyMarks_safes (ops : List (Bool × Cell)) (s : MinesweeperAI) :
    (applyMarks ops s).safes =
      s.safes ∪ (ops.filterMap (fun p => if p.1 then none else some p.2)).toFinset := by
  induction ops generalizing s with
  | nil => simp [applyMarks]
  | cons op rest ih =>
    rcases op with ⟨b, c⟩
    cases b
    · have hstep : applyMarks ((false, c) :: rest) s =
          applyMarks rest (MinesweeperAI.mark_safe c s) := rfl
      rw [hstep, ih]
      ext x
      simp [MinesweeperAI.mark_safe]
    · have hstep : applyMarks ((true, c) :: rest) s =
          applyMarks rest (MinesweeperAI.mark_mine c s) := rfl
      rw [hstep, ih]
      ext x
      simp [MinesweeperAI.mark_mine]

/-- The mines set after a sequence of mutator calls is the initial mines set
together with every cell passed to `mark_mine`. -/
lemma applyMarks_mines (ops : List (Bool × Cell)) (s : MinesweeperAI) :
    (applyMarks ops s).mines =
      s.mines ∪ (ops.filterMap (fun p => if p.1 then some p.2 else none)).toFinset := by
  induction ops generalizing s with
  | nil => simp [applyMarks]
  | cons op rest ih =>
    rcases op with ⟨b, c⟩
    cases b
    · have hstep : applyMarks ((false, c) :: rest) s =
          applyMarks rest (MinesweeperAI.mark_safe c s) := rfl
      rw [hstep, ih]
      ext x
      simp [MinesweeperAI.mark_safe]
    · have hstep : applyMarks ((true, c) :: rest) s =
          applyMarks rest (MinesweeperAI.mark_mine c s) := rfl
      rw [hstep, ih]
      ext x
      simp [MinesweeperAI.mark_mine]

/-! ## Claim theorems -/

/-- C1: the claim states that every `addKnowledge` call loops over steps 4-6
until a fixed point, so that in particular no fully-mined sentence (count
equal to the number of remaining cells) is still present when the call
returns.  The code runs a single pass, and already a single call on a fresh
engine, revealing the corner (0,0) with count 3, returns with the fully-mined
sentence over the three neighbors still in the knowledge base and none of its
cells marked as a mine: the fixed point described by the claim is not
reached. -/
theorem c1_single_pass_not_fixed_point :
    ∃ s, MinesweeperAI.add_knowledge (0, 0) 3 (MinesweeperAI.init 8 8) = Except.ok s ∧
      ∃ st ∈ s.knowledge, st.count = (st.cells.card : ℤ) ∧ st.cells ≠ ∅ ∧
        ∀ c ∈ st.cells, c ∉ s.mines := by
  refine ⟨⟨8, 8, {(0, 0)}, ∅, {(0, 0)}, [⟨{(0, 1), (1, 0), (1, 1)}, 3, ∅, ∅⟩]⟩,
    by decide, ⟨{(0, 1), (1, 0), (1, 1)}, 3, ∅, ∅⟩, by decide, by decide, by decide, by decide⟩

/-- C2: the claim states that after every `addKnowledge` call, every sentence
whose count equals its remaining cell count has all its cells in the global
mines set and has been removed.  The code only collapses the singleton case
(count 1 with exactly one cell): revealing (7,7) with count 3 leaves the
sentence over its three neighbors, with count equal to its size, in the
knowledge base, and the mines set stays empty. -/
theorem c2_general_full_count_rule_not_applied :
    ∃ s, MinesweeperAI.add_knowledge (7, 7) 3 (MinesweeperAI.init 8 8) = Except.ok s ∧
      (⟨{(6, 6), (6, 7), (7, 6)}, 3, ∅, ∅⟩ : Sentence) ∈ s.knowledge ∧
      ((({(6, 6), (6, 7), (7, 6)} : Finset Cell).card : ℤ) = 3 ∧ s.mines = ∅) := by
  refine ⟨⟨8, 8, {(7, 7)}, ∅, {(7, 7)}, [⟨{(6, 6), (6, 7), (7, 6)}, 3, ∅, ∅⟩]⟩,
    by decide, by decide, by decide, by decide⟩

/-- C4: subset resolution implements the subtraction rule.  For any pair of
distinct indices holding sentences A and B with the cells of A a subset of
the cells of B, `diff_sentences` succeeds and replaces B by the sentence with
cell set B minus A and count B.count minus A.count, leaving A unchanged at
its index. -/
theorem c4_diff_sentences_subtraction_rule (k : List Sentence) (i j : ℕ)
    (A B : Sentence) (hi : k.get? i = some A) (hj : k.get? j = some B)
    (hne : i ≠ j) (hsub : A.cells ⊆ B.cells) :
    MinesweeperAI.diff_sentences k (i, j) =
      Except.ok (k.set j ⟨B.cells \ A.cells, B.count - A.count, B.mines, B.safes⟩) ∧
    (k.set j ⟨B.cells \ A.cells, B.count - A.count, B.mines, B.safes⟩).get? i = some A := by
  constructor
  · unfold MinesweeperAI.diff_sentences
    rw [show k.get? (i, j).1 = some A from hi, show k.get? (i, j).2 = some B from hj]
    show (match removeCells (cellList A.cells) B.cells with
      | Except.ok cells2 =>
        Except.ok (k.set (i, j).2 { B with cells := cells2, count := B.count - A.count })
      | Except.error e => Except.error e) = _
    rw [removeCells_cellList hsub]
  · rw [List.get?_set_ne _ _ (Ne.symm hne)]
    exact hi

/-- C4 witness: the instance of the claim, with A the sentence over three
cells with count 1 and B the sentence over those three cells and one more
with count 2; after resolution B is the remaining singleton with count 1. -/
theorem c4_subtraction_witness :
    MinesweeperAI.diff_sentences
      [⟨{(0, 1), (0, 2), (0, 3)}, 1, ∅, ∅⟩, ⟨{(0, 1), (0, 2), (0, 3), (0, 4)}, 2, ∅, ∅⟩]
      (0, 1) =
      Except.ok
        [⟨{(0, 1), (0, 2), (0, 3)}, 1, ∅, ∅⟩, ⟨{(0, 4)}, 1, ∅, ∅⟩] := by
  have h := (c4_diff_sentences_subtraction_rule
    [⟨{(0, 1), (0, 2), (0, 3)}, 1, ∅, ∅⟩, ⟨{(0, 1), (0, 2), (0, 3), (0, 4)}, 2, ∅, ∅⟩]
    0 1 ⟨{(0, 1), (0, 2), (0, 3)}, 1, ∅, ∅⟩ ⟨{(0, 1), (0, 2), (0, 3), (0, 4)}, 2, ∅, ∅⟩
    (by decide) (by decide) (by decide) (by decide)).1
  rw [h]
  decide

/-- C5: the claim states that the global safes and mines sets are disjoint in
every state reachable through any sequence of the knowledge-base operations.
The mutators do not consult the other set: calling `mark_mine` and then
`mark_safe` on the same cell of a fresh engine is such a sequence, and it
leaves the cell in both sets. -/
theorem c5_safes_mines_not_disjoint :
    Reachable 8 8
      (MinesweeperAI.mark_safe (0, 0) (MinesweeperAI.mark_mine (0, 0)
        (MinesweeperAI.init 8 8))) ∧
    (0, 0) ∈ (MinesweeperAI.mark_safe (0, 0) (MinesweeperAI.mark_mine (0, 0)
        (MinesweeperAI.init 8 8))).safes ∧
    (0, 0) ∈ (MinesweeperAI.mark_safe (0, 0) (MinesweeperAI.mark_mine (0, 0)
        (MinesweeperAI.init 8 8))).mines :=
  ⟨Reachable.mark_safe (0, 0) (Reachable.mark_mine (0, 0) Reachable.init),
    by decide, by decide⟩

/-- C5 (amended): the mutators keep safes and mines disjoint exactly when no
cell is passed to both of them.  After any sequence of `mark_mine` (entries
tagged true) and `mark_safe` (entries tagged false) calls on a fresh engine
in which no cell occurs with both tags, the two global sets are disjoint;
marking some cell with both tags puts it in both sets, as the counterexample
shows. -/
theorem c5_marks_disjoint_without_conflict (h w : ℕ) (ops : List (Bool × Cell))
    (hyp : ∀ p ∈ ops, ∀ q ∈ ops, p.1 = true → q.1 = false → p.2 ≠ q.2) :
    Disjoint (applyMarks ops (MinesweeperAI.init h w)).safes
      (applyMarks ops (MinesweeperAI.init h w)).mines := by
  rw [applyMarks_safes, applyMarks_mines,
    show (MinesweeperAI.init h w).safes = ∅ from rfl,
    show (MinesweeperAI.init h w).mines = ∅ from rfl,
    Finset.empty_union, Finset.empty_union, Finset.disjoint_left]
  intro c hcs hcm
  rw [List.mem_toFinset, List.mem_filterMap] at hcs hcm
  obtain ⟨p, hp, hfp⟩ := hcs
  obtain ⟨q, hq, hfq⟩ := hcm
  rcases p with ⟨pb, pc⟩
  rcases q with ⟨qb, qc⟩
  cases pb <;> cases qb <;> simp at hfp hfq
  exact hyp (true, qc) hq (false, pc) hp rfl rfl (hfq.trans hfp.symm)

/-- C5 witness: a sequence marking one cell as a mine and a different cell
as safe keeps the two sets disjoint. -/
theorem c5_disjoint_witness :
    Disjoint
      (applyMarks [(true, (0, 0)), (false, (1, 1))] (MinesweeperAI.init 8 8)).safes
      (applyMarks [(true, (0, 0)), (false, (1, 1))] (MinesweeperAI.init 8 8)).mines :=
  c5_marks_disjoint_without_conflict 8 8 [(true, (0, 0)), (false, (1, 1))] (by decide)

/-- C3: the claim states that on every call sequence whose counts are
consistent with a real mine placement, the resolution step completes without
error and every sentence keeps 0 <= count <= size.  The five reveals below
are exactly the counts produced by a single mine at (1,0) on the true
8 by 8 neighborhood (first conjuncts: the revealed cells are pairwise
distinct, none is the mine, and each count is the number of neighbors that
are mines), yet the fifth call aborts with an uncaught KeyError inside
`diff_sentences`: the pairs collected up front overlap, the first resolution
removes cells that the second still expects to be present. -/
theorem c3_consistent_trace_raises_keyerror :
    ([(0, 0), (2, 1), (3, 0), (3, 2), (1, 1)] : List Cell).Nodup ∧
    (∀ c ∈ ([(0, 0), (2, 1), (3, 0), (3, 2), (1, 1)] : List Cell),
      c ∉ ({(1, 0)} : Finset Cell)) ∧
    (spec_neighbors 8 8 (0, 0) ∩ {(1, 0)}).card = 1 ∧
    (spec_neighbors 8 8 (2, 1) ∩ {(1, 0)}).card = 1 ∧
    (spec_neighbors 8 8 (3, 0) ∩ {(1, 0)}).card = 0 ∧
    (spec_neighbors 8 8 (3, 2) ∩ {(1, 0)}).card = 0 ∧
    (spec_neighbors 8 8 (1, 1) ∩ {(1, 0)}).card = 1 ∧
    Except.bind (Except.bind (Except.bind (Except.bind
      (MinesweeperAI.add_knowledge (0, 0) 1 (MinesweeperAI.init 8 8))
      (MinesweeperAI.add_knowledge (2, 1) 1))
      (MinesweeperAI.add_knowledge (3, 0) 0))
      (MinesweeperAI.add_knowledge (3, 2) 0))
      (MinesweeperAI.add_knowledge (1, 1) 1) = Except.error "KeyError" := by
  refine ⟨by decide, by decide, by decide, by decide, by decide, by decide, by decide, ?_⟩
  decide

/-- C6: the claim states that an irreconcilable count is detected and
surfaced as a distinct, explicit failure.  Revealing the corner (0,0), which
has three neighbors, with count 5 is irreconcilable, yet the call returns
normally and the sentence with count 5 over 3 cells stays in the knowledge
base: nothing is detected and no failure of any kind is signalled. -/
theorem c6_inconsistency_accepted_silently :
    ∃ s, MinesweeperAI.add_knowledge (0, 0) 5 (MinesweeperAI.init 8 8) = Except.ok s ∧
      ∃ st ∈ s.knowledge, (st.cells.card : ℤ) < st.count := by
  refine ⟨⟨8, 8, {(0, 0)}, ∅, {(0, 0)}, [⟨{(0, 1), (1, 0), (1, 1)}, 5, ∅, ∅⟩]⟩,
    by decide, ⟨{(0, 1), (1, 0), (1, 1)}, 5, ∅, ∅⟩, by decide, by decide⟩

/-- C6 (amended): the engine performs no consistency detection at all.  The
only failures `add_knowledge` can ever surface are the accidental Python
runtime exceptions of its subset-resolution step, a KeyError from removing
an absent cell or an IndexError from list indexing, never a designed
inconsistency report; an irreconcilable count that raises neither is
silently retained, as the counterexample shows. -/
theorem c6_no_designed_failure (c : Cell) (n : ℤ) (s : MinesweeperAI) (e : String)
    (h : MinesweeperAI.add_knowledge c n s = Except.error e) :
    e = "KeyError" ∨ e = "IndexError" := by
  unfold MinesweeperAI.add_knowledge at h
  split at h
  · rename_i e2 hres
    have he : e2 = e := (Except.error.injEq _ _).mp h
    exact he ▸ resolve_error hres
  · simp at h

/-- C6 witness: a state on which `add_knowledge` raises KeyError, at which
the theorem applies. -/
theorem c6_exception_witness :
    MinesweeperAI.add_knowledge (1, 1) 1
      ⟨8, 8, ∅, ∅, ∅, [⟨{(0, 1), (1, 0)}, 1, ∅, ∅⟩, ⟨{(1, 0), (2, 1)}, 1, ∅, ∅⟩]⟩ =
      Except.error "KeyError" ∧
    ("KeyError" = "KeyError" ∨ "KeyError" = "IndexError") :=
  ⟨by decide,
    c6_no_designed_failure (1, 1) 1
      ⟨8, 8, ∅, ∅, ∅, [⟨{(0, 1), (1, 0)}, 1, ∅, ∅⟩, ⟨{(1, 0), (2, 1)}, 1, ∅, ∅⟩]⟩
      "KeyError" (by decide)⟩

/-- C7: the claim states that for every board height and width the neighbor
computation clips to [0, height) by [0, width).  The code hardcodes the
upper bound 7: for a 3 by 3 board the cell (2,2) is in bounds, but the
computed neighbor set is not the specified one; it even contains (3,3),
which lies outside the board. -/
theorem c7_get_neighbors_ignores_board_bounds :
    ((0:ℤ) ≤ 2 ∧ (2:ℤ) < 3 ∧ (0:ℤ) ≤ 2 ∧ (2:ℤ) < 3) ∧
    MinesweeperAI.get_neighbors (2, 2) ≠ spec_neighbors 3 3 (2, 2) ∧
    (3, 3) ∈ MinesweeperAI.get_neighbors (2, 2) ∧ ¬((3:ℤ) < 3) := by
  decide

/-- C7 (amended): on the default 8 by 8 board the code is right: for every
cell with both coordinates in [0, 8), `get_neighbors` returns exactly the
set of cells at Chebyshev distance 1 clipped to the 8 by 8 bounds; it is a
pure function of the cell, so it is deterministic and has no side effects. -/
theorem c7_get_neighbors_correct_on_8x8 :
    ∀ c ∈ (Finset.Icc (0:ℤ) 7) ×ˢ (Finset.Icc (0:ℤ) 7),
      MinesweeperAI.get_neighbors c = spec_neighbors 8 8 c := by
  decide

/-- C7 witness: the corner cell (0,0). -/
theorem c7_neighbors_witness :
    (0, 0) ∈ (Finset.Icc (0:ℤ) 7) ×ˢ (Finset.Icc (0:ℤ) 7) ∧
    MinesweeperAI.get_neighbors (0, 0) = spec_neighbors 8 8 (0, 0) :=
  ⟨by decide, c7_get_neighbors_correct_on_8x8 (0, 0) (by decide)⟩

/-- C8: the claim quantifies over every knowledge-base state and says that
`make_safe_move` returns an eligible cell when one exists and the None
sentinel rather than crashing otherwise.  In a state whose moves made are
not all known safe, the unguarded removal loop raises KeyError even though
an eligible cell exists: with moves {(0,0)} and safes {(1,1)} the call
crashes although (1,1) is safe and unplayed. -/
theorem c8_make_safe_move_crashes_on_unguarded_removal :
    MinesweeperAI.make_safe_move ⟨8, 8, {(0, 0)}, ∅, {(1, 1)}, []⟩ =
      Except.error "KeyError" ∧
    ((1, 1) ∈ (⟨8, 8, {(0, 0)}, ∅, {(1, 1)}, []⟩ : MinesweeperAI).safes ∧
      (1, 1) ∉ (⟨8, 8, {(0, 0)}, ∅, {(1, 1)}, []⟩ : MinesweeperAI).moves_made) := by
  refine ⟨by decide, by decide, by decide⟩

/-- C8 (amended): restricted to states satisfying the reachable-state
invariant that every move made is known safe, the claim holds:
`make_safe_move` returns None when no known-safe unplayed cell exists and
otherwise some cell that is in safes and not in moves made.  The embedding
of `make_safe_move` is a function of the state that returns only the chosen
move, mirroring that the source reads but never writes the three sets (it
works on a copy of safes). -/
theorem c8_make_safe_move_correct_under_invariant (s : MinesweeperAI)
    (h : s.moves_made ⊆ s.safes) :
    (MinesweeperAI.make_safe_move s = Except.ok none ∧ s.safes \ s.moves_made = ∅) ∨
    (∃ c, MinesweeperAI.make_safe_move s = Except.ok (some c) ∧
      c ∈ s.safes ∧ c ∉ s.moves_made) :=
  make_safe_move_spec h

/-- C8 witness: a state with one known safe cell and no moves made. -/
theorem c8_safe_move_witness :
    (MinesweeperAI.make_safe_move ⟨8, 8, ∅, ∅, {(0, 0)}, []⟩ = Except.ok none ∧
      (⟨8, 8, ∅, ∅, {(0, 0)}, []⟩ : MinesweeperAI).safes \
        (⟨8, 8, ∅, ∅, {(0, 0)}, []⟩ : MinesweeperAI).moves_made = ∅) ∨
    (∃ c, MinesweeperAI.make_safe_move ⟨8, 8, ∅, ∅, {(0, 0)}, []⟩ = Except.ok (some c) ∧
      c ∈ (⟨8, 8, ∅, ∅, {(0, 0)}, []⟩ : MinesweeperAI).safes ∧
      c ∉ (⟨8, 8, ∅, ∅, {(0, 0)}, []⟩ : MinesweeperAI).moves_made) :=
  c8_make_safe_move_correct_under_invariant ⟨8, 8, ∅, ∅, {(0, 0)}, []⟩ (by decide)

/-- C9: the claim says that on an exhausted board `make_random_move` reports
an explicit no-moves-available outcome rather than crashing.  On a 1 by 1
board whose only cell has been revealed (a state reached by one
`add_knowledge` call), the remaining pool is empty and the call ends in an
uncaught StopIteration from `next(iter(...))`, the crash of an exhausted
iterator, not a designed report. -/
theorem c9_make_random_move_crashes_when_exhausted :
    ∃ s, MinesweeperAI.add_knowledge (0, 0) 0 (MinesweeperAI.init 1 1) = Except.ok s ∧
      (allCells s.height s.width \ s.moves_made) \ s.mines = ∅ ∧
      MinesweeperAI.make_random_move s = Except.error "StopIteration" := by
  refine ⟨⟨1, 1, {(0, 0)}, ∅, {(0, 0), (0, 1), (1, 0), (1, 1)}, []⟩,
    by decide, by decide, by decide⟩

/-- C9 (amended): when the moves made lie on the board and the known mines
are board cells not yet played (so that the two removal loops cannot raise
KeyError), `make_random_move` returns a cell of the board that is neither a
known mine nor already played whenever such a cell exists, and raises
StopIteration (an uncaught crash, not an explicit report) when the pool is
empty. -/
theorem c9_make_random_move_correct_on_nonexhausted (s : MinesweeperAI)
    (h1 : s.moves_made ⊆ allCells s.height s.width)
    (h2 : s.mines ⊆ allCells s.height s.width \ s.moves_made) :
    ((allCells s.height s.width \ s.moves_made) \ s.mines = ∅ →
      MinesweeperAI.make_random_move s = Except.error "StopIteration") ∧
    ((allCells s.height s.width \ s.moves_made) \ s.mines ≠ ∅ →
      ∃ c, MinesweeperAI.make_random_move s = Except.ok c ∧
        c ∉ s.mines ∧ c ∉ s.moves_made ∧ c ∈ allCells s.height s.width) :=
  make_random_move_spec h1 h2

/-- C9 witness: a 2 by 2 board with one move made and one known mine; the
returned cell avoids both. -/
theorem c9_random_move_witness :
    ∃ c, MinesweeperAI.make_random_move ⟨2, 2, {(0, 0)}, {(1, 1)}, ∅, []⟩ = Except.ok c ∧
      c ∉ (⟨2, 2, {(0, 0)}, {(1, 1)}, ∅, []⟩ : MinesweeperAI).mines ∧
      c ∉ (⟨2, 2, {(0, 0)}, {(1, 1)}, ∅, []⟩ : MinesweeperAI).moves_made ∧
      c ∈ allCells 2 2 :=
  (c9_make_random_move_correct_on_nonexhausted ⟨2, 2, {(0, 0)}, {(1, 1)}, ∅, []⟩
    (by decide) (by decide)).2 (by decide)

/-- C10: in every state reachable through the public operations, the moves
made are a subset of the known safe cells: `add_knowledge` is the only
operation that inserts into moves made and it marks that same cell safe at
once, the two mutators never touch moves made and never remove from safes,
and the move selectors do not change the state.  Under this invariant the
unguarded removal of every move from the copied safes set inside
`make_safe_move` always succeeds: the call returns normally. -/
theorem c10_moves_made_subset_safes (h w : ℕ) (s : MinesweeperAI)
    (hr : Reachable h w s) :
    s.moves_made ⊆ s.safes ∧ ∃ r, MinesweeperAI.make_safe_move s = Except.ok r := by
  have hinv : s.moves_made ⊆ s.safes := by
    induction hr with
    | init => exact Finset.empty_subset _
    | mark_mine c hr ih => exact ih
    | mark_safe c hr ih =>
      exact fun x hx => Finset.mem_insert_of_mem (ih hx)
    | add_knowledge c n hr hok ih =>
      obtain ⟨hm, hs⟩ := add_knowledge_ok_fields hok
      rw [hm]
      intro x hx
      rcases Finset.mem_insert.mp hx with hx1 | hx2
      · exact hs (hx1 ▸ Finset.mem_insert_self _ _)
      · exact hs (Finset.mem_insert_of_mem (ih hx2))
  refine ⟨hinv, ?_⟩
  rcases make_safe_move_spec hinv with ⟨hok, _⟩ | ⟨c, hok, _⟩
  · exact ⟨none, hok⟩
  · exact ⟨some c, hok⟩

/-- C10 witness: the initial state is reachable; the invariant and the
normal return hold there. -/
theorem c10_invariant_witness :
    (MinesweeperAI.init 8 8).moves_made ⊆ (MinesweeperAI.init 8 8).safes ∧
    ∃ r, MinesweeperAI.make_safe_move (MinesweeperAI.init 8 8) = Except.ok r :=
  c10_moves_made_subset_safes 8 8 (MinesweeperAI.init 8 8) Reachable.init
